import Mathlib

/-!
Verification of the menu-extraction pipeline of `src/api/ocr.py`.

The embedding below translates the pure core of the file:

* the price regular expression and its `re.search` semantics, as a
  backtracking matcher that enumerates alternatives in Python's
  priority order (leftmost position first, alternation left to right,
  greedy quantifiers longest first);
* `extract_menu_items` (line cleaning plus the accumulator state
  machine over cleaned lines);
* `translate_text` with the external backend abstracted as a fallible
  function;
* the OCR configuration loop of `ocr_endpoint` (per-profile mean
  confidence, strict best-so-far selection, and the no-text check),
  with each profile's engine outcome abstracted as an `Option`.

Character classes are modelled on the ASCII range that the source's
menu text exercises.
-/

namespace OCR2

/-- Whitespace characters recognized by Python's `strip` and the regex
whitespace class, restricted to the ASCII range. -/
def pySpace (c : Char) : Bool :=
  c = ' ' || c = '\t' || c = '\n' || c = '\r' || c = '\x0b' || c = '\x0c'

/-- The decimal digit class of the price pattern. -/
def isDigit (c : Char) : Bool := '0' ≤ c && c ≤ '9'

/-- The currency symbol class of the price pattern: dollar, euro, pound,
yen and rupee signs. -/
def isCurrencySym (c : Char) : Bool :=
  c = '$' || c = '€' || c = '£' || c = '¥' || c = '₹'

/-- A backtracking matcher anchored at the head of the input: every way
to match, as (consumed length, remaining input) pairs, listed in the
priority order in which Python's `re` engine would try them. -/
abbrev RMatch := List Char → List (Nat × List Char)

/-- Match one character of a class. -/
def mchar (p : Char → Bool) : RMatch := fun cs =>
  match cs with
  | [] => []
  | c :: rest => if p c then [(1, rest)] else []

/-- Sequencing of matchers, alternatives in depth-first order. -/
def mseq (a b : RMatch) : RMatch := fun cs =>
  ((a cs).map (fun x => (b x.2).map (fun y => (x.1 + y.1, y.2)))).flatten

/-- Alternation: the left alternative has priority. -/
def malt (a b : RMatch) : RMatch := fun cs => a cs ++ b cs

/-- Greedy option: matching is preferred to skipping. -/
def mopt (a : RMatch) : RMatch := fun cs => a cs ++ [(0, cs)]

/-- Greedy star over a character class: longest run first. -/
def mstar (p : Char → Bool) : RMatch
  | [] => [(0, [])]
  | c :: rest =>
    if p c then (mstar p rest).map (fun x => (x.1 + 1, x.2)) ++ [(0, c :: rest)]
    else [(0, c :: rest)]

/-- Greedy plus over a character class. -/
def mplus (p : Char → Bool) : RMatch := mseq (mchar p) (mstar p)

/-- A literal string. -/
def mstr : List Char → RMatch
  | [], cs => [(0, cs)]
  | _ :: _, [] => []
  | t :: ts, c :: rest =>
    if c = t then (mstr ts rest).map (fun x => (x.1 + 1, x.2)) else []

/-- A numeric amount: one or more digits with an optional two-decimal
fraction. -/
def mnum : RMatch :=
  mseq (mplus isDigit)
    (mopt (mseq (mchar (fun c => c = '.')) (mseq (mchar isDigit) (mchar isDigit))))

/-- The three-letter currency codes accepted after an amount. -/
def mcode : RMatch :=
  malt (mstr ['U', 'S', 'D'])
    (malt (mstr ['E', 'U', 'R'])
      (malt (mstr ['G', 'B', 'P'])
        (malt (mstr ['J', 'P', 'Y']) (mstr ['I', 'N', 'R']))))

/-- The price pattern of `extract_menu_items`: a currency symbol then an
amount, or an amount then a currency symbol, or an amount then a
currency code, with optional whitespace in between. -/
def pricePattern : RMatch :=
  malt (mseq (mchar isCurrencySym) (mseq (mstar pySpace) mnum))
    (malt (mseq mnum (mseq (mstar pySpace) (mchar isCurrencySym)))
      (mseq mnum (mseq (mstar pySpace) mcode)))

/-- Model of `re.search`: scan positions left to right and return the
matched substring of the first position where the pattern matches,
choosing the highest-priority alternative there. -/
def reSearch (pat : RMatch) : List Char → Option (List Char)
  | [] =>
    match pat [] with
    | _ :: _ => some []
    | [] => none
  | c :: rest =>
    match pat (c :: rest) with
    | x :: _ => some ((c :: rest).take x.1)
    | [] => reSearch pat rest

/-- Search for the price pattern in a line, returning the matched
substring, as `re.search(price_pattern, line)` followed by `.group()`. -/
def priceSearch (line : List Char) : Option (List Char) := reSearch pricePattern line

/-- The check `bool(re.search(price_pattern, line))`. -/
def hasPrice (line : List Char) : Bool := (priceSearch line).isSome

/-- Python `str.strip`: drop leading and trailing whitespace. -/
def stripList (cs : List Char) : List Char :=
  ((cs.dropWhile pySpace).reverse.dropWhile pySpace).reverse

/-- Python `text.split(chr(10))`: split on newline characters, keeping
empty pieces; the empty text yields one empty piece. -/
def pySplitLines : List Char → List (List Char)
  | [] => [[]]
  | c :: rest =>
    if c = '\n' then [] :: pySplitLines rest
    else (c :: (pySplitLines rest).headI) :: (pySplitLines rest).tail

/-- The cleaned line list of `extract_menu_items`: split on newlines,
strip each line, keep the nonempty ones. -/
def cleanLines (text : List Char) : List (List Char) :=
  ((pySplitLines text).map stripList).filter (fun l => !l.isEmpty)

/-- Join lines back into a text with newline separators; the inverse of
splitting, used to phrase removal of lines from a text. -/
def joinLines : List (List Char) → List Char
  | [] => []
  | [l] => l
  | l :: l2 :: rest => l ++ '\n' :: joinLines (l2 :: rest)

/-- The same text with every line whose stripped length is under 3
removed. -/
def removeShortLines (text : String) : String :=
  ⟨joinLines ((pySplitLines text.data).filter
    (fun l => decide (3 ≤ (stripList l).length)))⟩

/-- A menu item record. The Python code uses a dict whose only possible
keys are the six below, so presence of a key is an `Option`. -/
structure MenuItem where
  name : Option String := none
  description : Option String := none
  price : Option String := none
  full_text : Option String := none
  name_translated : Option String := none
  description_translated : Option String := none
deriving Repr, DecidableEq

/-- The empty accumulator dict. -/
def MenuItem.empty : MenuItem := {}

/-- Python dict truthiness for the accumulator: some key is present. -/
def MenuItem.nonempty (it : MenuItem) : Bool :=
  it.name.isSome || it.description.isSome || it.price.isSome || it.full_text.isSome
    || it.name_translated.isSome || it.description_translated.isSome

def listToStr (cs : List Char) : String := ⟨cs⟩

/-- The per-line loop of `extract_menu_items`, threading the
`current_item` accumulator over the cleaned lines and flushing a
leftover open item at the end. -/
def extractLoop : MenuItem → List (List Char) → List MenuItem
  | cur, [] => if cur.nonempty then [cur] else []
  | cur, line :: rest =>
    if line.length < 3 then extractLoop cur rest
    else
      if hasPrice line && cur.nonempty then
        { cur with
            price := some (listToStr ((priceSearch line).getD [])),
            full_text := some ((cur.name.getD "") ++ " " ++ listToStr line) }
          :: extractLoop MenuItem.empty rest
      else if (decide (line.length > 20) && !hasPrice line) && !cur.nonempty then
        extractLoop { MenuItem.empty with description := some (listToStr line) } rest
      else if !hasPrice line && !(decide (line.length > 20) && !hasPrice line) then
        (if cur.nonempty then extractLoop { cur with name := some (listToStr line) } rest
         else extractLoop { MenuItem.empty with name := some (listToStr line) } rest)
      else
        extractLoop cur rest

/-- The function `extract_menu_items`. -/
def extract_menu_items (text : String) : List MenuItem :=
  extractLoop MenuItem.empty (cleanLines text.data)

/-- The function `translate_text`, with the googletrans backend
abstracted as a function that either returns a translation or fails. -/
def translate_text (backend : String → String → Except String String)
    (text : String) (target_lang : String) : String :=
  if target_lang = "en" then text
  else
    match backend text target_lang with
    | Except.ok t => t
    | Except.error _ => text

/-- The per-item translation step of `ocr_endpoint`: for each of the
keys name and description that is present, store the translation under
the synthesized translated key. -/
def translateItem (backend : String → String → Except String String)
    (target_lang : String) (it : MenuItem) : MenuItem :=
  let it1 :=
    match it.name with
    | some n => { it with name_translated := some (translate_text backend n target_lang) }
    | none => it
  match it1.description with
  | some d => { it1 with description_translated := some (translate_text backend d target_lang) }
  | none => it1

/-- The guard and loop of `ocr_endpoint` that translates the extracted
menu items when the target language is not English and differs from the
detected language. -/
def applyTranslation (backend : String → String → Except String String)
    (target_lang detected_lang : String) (items : List MenuItem) : List MenuItem :=
  if target_lang ≠ "en" ∧ detected_lang ≠ target_lang then
    items.map (translateItem backend target_lang)
  else items

/-- One OCR configuration attempt in `ocr_endpoint`: `none` models an
engine failure caught by the per-profile handler; `some` carries the
per-token integer confidences and the recognized text. -/
abbrev ProfileResult := Option (List Int × String)

/-- The mean confidence of a profile: the average of the strictly
positive confidence values, and zero when there are none. -/
def meanConfidence (confs : List Int) : ℚ :=
  let pos := confs.filter (fun c => decide (0 < c))
  if pos.isEmpty then 0 else (pos.sum : ℚ) / (pos.length : ℚ)

/-- The configuration loop of `ocr_endpoint`: skip failed profiles and
keep the text whose mean confidence strictly exceeds the best so far. -/
def selectLoop : List ProfileResult → String × ℚ → String × ℚ
  | [], best => best
  | none :: rest, best => selectLoop rest best
  | some (confs, text) :: rest, best =>
    if meanConfidence confs > best.2 then selectLoop rest (text, meanConfidence confs)
    else selectLoop rest best

/-- The loop started from the initial best (empty text, confidence 0). -/
def selectBest (profiles : List ProfileResult) : String × ℚ := selectLoop profiles ("", 0)

/-- The no-text check of `ocr_endpoint`: fail with the no-text error
when the stripped best text is empty, otherwise keep the best
candidate. -/
def ocrSelect (profiles : List ProfileResult) : Except String (String × ℚ) :=
  if (stripList (selectBest profiles).1.data).isEmpty then
    Except.error "No text detected in image"
  else Except.ok (selectBest profiles)

/-- Skipping every profile that failed leaves the running best
unchanged. -/
theorem selectLoop_all_none (profiles : List ProfileResult) (best : String × ℚ)
    (h : ∀ p ∈ profiles, p = none) : selectLoop profiles best = best := by
  induction profiles with
  | nil => rfl
  | cons p rest ih =>
    have hp := h p (List.mem_cons_self p rest)
    subst hp
    exact ih fun q hq => h q (List.mem_cons_of_mem _ hq)

/-- C1: the selector fails with the no-text error if and only if every
profile failed or the kept best candidate's text is empty or
whitespace-only; otherwise it proceeds with the best candidate. -/
theorem c1_no_text_detected_iff (profiles : List ProfileResult) :
    ocrSelect profiles = Except.error "No text detected in image"
      ↔ ((∀ p ∈ profiles, p = none)
          ∨ (stripList (selectBest profiles).1.data).isEmpty = true) := by
  unfold ocrSelect
  constructor
  · intro h
    by_cases hc : (stripList (selectBest profiles).1.data).isEmpty = true
    · exact Or.inr hc
    · rw [if_neg hc] at h
      simp at h
  · intro h
    rcases h with h | h
    · have hb : selectBest profiles = ("", 0) := selectLoop_all_none profiles _ h
      rw [hb]
      rfl
    · rw [if_pos h]

theorem c1_witness :
    ocrSelect [none, none, none] = Except.error "No text detected in image" :=
  (c1_no_text_detected_iff [none, none, none]).mpr (Or.inl (by decide))

/-- C2: on the Pasta menu text the segmenter returns exactly one item,
with name Pasta, price 12.50 dollars and the concatenated full text,
and the description line appears in no returned item. -/
theorem c2_pasta_example :
    extract_menu_items "Pasta\nDelicious handmade pasta with truffle sauce\n$12.50" =
      [{ name := some "Pasta", price := some "$12.50", full_text := some "Pasta $12.50" }]
    ∧ (extract_menu_items "Pasta\nDelicious handmade pasta with truffle sauce\n$12.50").all
        (fun it => it.description.isNone) = true := by
  decide

/-- C3: a later profile whose mean confidence merely equals the current
best never replaces it, and on mean confidences 40, 85, 60 the selector
keeps the second profile's text with confidence 85. -/
theorem c3_strict_highest_confidence :
    (∀ (rest : List ProfileResult) (confs : List Int) (text bt : String) (bc : ℚ),
        meanConfidence confs = bc →
        selectLoop (some (confs, text) :: rest) (bt, bc) = selectLoop rest (bt, bc))
    ∧ ∀ tA tB tC : String,
        selectBest [some ([40], tA), some ([85], tB), some ([60], tC)] = (tB, 85) := by
  constructor
  · intro rest confs text bt bc h
    conv_lhs => rw [selectLoop]
    rw [h]
    simp
  · intro tA tB tC
    norm_num [selectBest, selectLoop, meanConfidence]

theorem c3_witness :
    selectLoop [some ([50], "x")] ("y", 50) = selectLoop [] ("y", 50) ∧
    selectBest [some ([40], "a"), some ([85], "b"), some ([60], "c")] = ("b", 85) :=
  ⟨c3_strict_highest_confidence.1 [] [50] "x" "y" 50 (by norm_num [meanConfidence]),
   c3_strict_highest_confidence.2 "a" "b" "c"⟩

/-- C4: the mean confidence is the arithmetic mean of the strictly
positive confidence scores, and zero when no score is positive. -/
theorem c4_mean_confidence_is_positive_mean (confs : List Int) :
    (confs.filter (fun c => decide (0 < c)) = [] → meanConfidence confs = 0)
    ∧ (confs.filter (fun c => decide (0 < c)) ≠ [] →
        meanConfidence confs * ((confs.filter (fun c => decide (0 < c))).length : ℚ)
          = ((confs.filter (fun c => decide (0 < c))).sum : ℚ)) := by
  constructor
  · intro h
    simp [meanConfidence, h]
  · intro h
    have hlen : ((confs.filter (fun c => decide (0 < c))).length : ℚ) ≠ 0 := by
      have : (confs.filter (fun c => decide (0 < c))).length ≠ 0 := by
        simpa [List.length_eq_zero] using h
      exact_mod_cast this
    simp only [meanConfidence, List.isEmpty_iff, if_neg h]
    exact div_mul_cancel₀ _ hlen

theorem c4_witness :
    meanConfidence [-3, 0] = 0 ∧
    meanConfidence [30, -5, 50]
        * ((([30, -5, 50] : List Int).filter (fun c => decide (0 < c))).length : ℚ)
      = ((([30, -5, 50] : List Int).filter (fun c => decide (0 < c))).sum : ℚ) :=
  ⟨(c4_mean_confidence_is_positive_mean [-3, 0]).1 (by decide),
   (c4_mean_confidence_is_positive_mean [30, -5, 50]).2 (by decide)⟩

/-- C6: the price pattern classifies the four sample price strings as
containing a price and classifies a spelled-out amount as not
containing one. -/
theorem c6_price_pattern_examples :
    hasPrice "$12.50".data = true ∧ hasPrice "12.50$".data = true ∧
    hasPrice "12 USD".data = true ∧ hasPrice "₹100".data = true ∧
    hasPrice "twelve dollars".data = false := by
  decide

/-- C8: translating to English returns the text unchanged for every
backend, and a backend failure is swallowed, returning the original
text. -/
theorem c8_translate_best_effort (backend : String → String → Except String String)
    (text target_lang err : String) :
    translate_text backend text "en" = text ∧
    (backend text target_lang = Except.error err →
      translate_text backend text target_lang = text) := by
  refine ⟨rfl, fun h => ?_⟩
  unfold translate_text
  split
  · rfl
  · rw [h]

theorem c8_witness :
    translate_text (fun _ _ => Except.error "down") "Carte" "en" = "Carte" ∧
    translate_text (fun _ _ => Except.error "down") "Carte" "fr" = "Carte" :=
  ⟨(c8_translate_best_effort (fun _ _ => Except.error "down") "Carte" "fr" "down").1,
   (c8_translate_best_effort (fun _ _ => Except.error "down") "Carte" "fr" "down").2 rfl⟩

/-- C10: a price line met while the accumulator is empty is silently
dropped: no item is appended, no item is opened, and the loop continues
with the accumulator still empty. -/
theorem c10_price_line_dropped_when_no_open_item (line : List Char)
    (rest : List (List Char)) (h : hasPrice line = true) :
    extractLoop MenuItem.empty (line :: rest) = extractLoop MenuItem.empty rest := by
  conv_lhs => rw [extractLoop]
  by_cases hlen : line.length < 3
  · rw [if_pos hlen]
  · rw [if_neg hlen]
    simp [h, MenuItem.nonempty, MenuItem.empty]

theorem c10_witness :
    extractLoop MenuItem.empty (['$', '1', '2'] :: []) = extractLoop MenuItem.empty [] :=
  c10_price_line_dropped_when_no_open_item ['$', '1', '2'] [] (by decide)

/-- Translating an item never changes its name, description, price or
full text fields. -/
theorem translateItem_preserves (backend : String → String → Except String String)
    (tl : String) (it : MenuItem) :
    (translateItem backend tl it).name = it.name
    ∧ (translateItem backend tl it).description = it.description
    ∧ (translateItem backend tl it).price = it.price
    ∧ (translateItem backend tl it).full_text = it.full_text := by
  obtain ⟨n, d, p, f, nt, dt⟩ := it
  cases n <;> cases d <;> simp [translateItem]

/-- C9: translation only ever adds the synthesized translated keys, for
fields that are present, and only when the target language is not
English and differs from the detected language; the four original
fields, the item order and the item count are unchanged, and when the
target is English or equals the detected language no item changes at
all. -/
theorem c9_translation_frame (backend : String → String → Except String String)
    (tl dl : String) (items : List MenuItem) :
    (applyTranslation backend tl dl items).length = items.length
    ∧ (∀ i : Nat,
        ((applyTranslation backend tl dl items)[i]?).map MenuItem.name
          = (items[i]?).map MenuItem.name
        ∧ ((applyTranslation backend tl dl items)[i]?).map MenuItem.description
          = (items[i]?).map MenuItem.description
        ∧ ((applyTranslation backend tl dl items)[i]?).map MenuItem.price
          = (items[i]?).map MenuItem.price
        ∧ ((applyTranslation backend tl dl items)[i]?).map MenuItem.full_text
          = (items[i]?).map MenuItem.full_text)
    ∧ ((tl = "en" ∨ dl = tl) → applyTranslation backend tl dl items = items)
    ∧ (∀ it : MenuItem,
        (it.name = none →
          (translateItem backend tl it).name_translated = it.name_translated)
        ∧ (it.description = none →
          (translateItem backend tl it).description_translated = it.description_translated)) := by
  refine ⟨?_, ?_, ?_, ?_⟩
  · unfold applyTranslation
    split
    · exact List.length_map items _
    · rfl
  · intro i
    unfold applyTranslation
    split
    · rw [List.getElem?_map]
      cases items[i]? with
      | none => simp
      | some it =>
        have h := translateItem_preserves backend tl it
        simp [h.1, h.2.1, h.2.2.1, h.2.2.2]
    · exact ⟨rfl, rfl, rfl, rfl⟩
  · intro h
    unfold applyTranslation
    rw [if_neg]
    rintro ⟨h1, h2⟩
    rcases h with h | h
    · exact h1 h
    · exact h2 h
  · intro it
    obtain ⟨n, d, p, f, nt, dt⟩ := it
    constructor
    · intro hn
      simp only at hn
      subst hn
      cases d <;> simp [translateItem]
    · intro hd
      simp only at hd
      subst hd
      cases n <;> simp [translateItem]

theorem c9_witness :
    applyTranslation (fun _ _ => Except.error "down") "en" "fr" [MenuItem.empty]
      = [MenuItem.empty]
    ∧ (translateItem (fun _ _ => Except.error "down") "fr" MenuItem.empty).name_translated
      = MenuItem.empty.name_translated :=
  ⟨(c9_translation_frame (fun _ _ => Except.error "down") "en" "fr" [MenuItem.empty]).2.2.1
      (Or.inl rfl),
   ((c9_translation_frame (fun _ _ => Except.error "down") "fr" "fr" [MenuItem.empty]).2.2.2
      MenuItem.empty).1 rfl⟩

/-- Prepending a closed item preserves the output shape: every item
before the last is closed, and every item is closed or has neither
price nor full text. -/
theorem shape_cons (a : MenuItem) (l : List MenuItem)
    (ha : a.price.isSome ∧ a.full_text.isSome)
    (h1 : ∀ it ∈ l.dropLast, it.price.isSome ∧ it.full_text.isSome)
    (h2 : ∀ it ∈ l,
      (it.price.isSome ∧ it.full_text.isSome) ∨ (it.price = none ∧ it.full_text = none)) :
    (∀ it ∈ (a :: l).dropLast, it.price.isSome ∧ it.full_text.isSome)
    ∧ (∀ it ∈ a :: l,
        (it.price.isSome ∧ it.full_text.isSome) ∨ (it.price = none ∧ it.full_text = none)) := by
  constructor
  · intro it hit
    cases l with
    | nil => simp at hit
    | cons b t =>
      rw [List.dropLast_cons₂] at hit
      rcases List.mem_cons.mp hit with h | h
      · subst h; exact ha
      · exact h1 it h
  · intro it hit
    rcases List.mem_cons.mp hit with h | h
    · subst h; exact Or.inl ha
    · exact h2 it h

/-- The loop invariant behind C5: started from an accumulator without
price or full text, the loop only ever emits closed items, except that
the flushed trailing item may carry neither field. -/
theorem extractLoop_shape (lines : List (List Char)) :
    ∀ cur : MenuItem, cur.price = none → cur.full_text = none →
      (∀ it ∈ (extractLoop cur lines).dropLast, it.price.isSome ∧ it.full_text.isSome)
      ∧ (∀ it ∈ extractLoop cur lines,
          (it.price.isSome ∧ it.full_text.isSome) ∨ (it.price = none ∧ it.full_text = none)) := by
  induction lines with
  | nil =>
    intro cur hp hf
    constructor
    · intro it hit
      rw [extractLoop] at hit
      split at hit <;> simp at hit
    · intro it hit
      rw [extractLoop] at hit
      split at hit
      · rw [List.mem_singleton] at hit
        subst hit
        exact Or.inr ⟨hp, hf⟩
      · simp at hit
  | cons line rest ih =>
    intro cur hp hf
    rw [extractLoop]
    by_cases hlen : line.length < 3
    · rw [if_pos hlen]
      exact ih cur hp hf
    · rw [if_neg hlen]
      by_cases h1 : (hasPrice line && cur.nonempty) = true
      · rw [if_pos h1]
        exact shape_cons _ _ (by simp) (ih MenuItem.empty rfl rfl).1 (ih MenuItem.empty rfl rfl).2
      · rw [if_neg h1]
        by_cases h2 : ((decide (line.length > 20) && !hasPrice line) && !cur.nonempty) = true
        · rw [if_pos h2]
          exact ih _ rfl rfl
        · rw [if_neg h2]
          by_cases h3 : (!hasPrice line && !(decide (line.length > 20) && !hasPrice line)) = true
          · rw [if_pos h3]
            by_cases h4 : cur.nonempty = true
            · rw [if_pos h4]
              exact ih _ hp hf
            · rw [if_neg h4]
              exact ih _ rfl rfl
          · rw [if_neg h3]
            exact ih cur hp hf

/-- C5: in the segmenter's output every item except possibly the last
was closed by a price line, carrying a price and a full text, and at
most the final item is a flushed partial record with neither field. -/
theorem c5_all_but_last_closed (text : String) :
    (∀ it ∈ (extract_menu_items text).dropLast, it.price.isSome ∧ it.full_text.isSome)
    ∧ (∀ it, (extract_menu_items text).getLast? = some it →
        (it.price.isSome ∧ it.full_text.isSome) ∨ (it.price = none ∧ it.full_text = none)) := by
  have h := extractLoop_shape (cleanLines text.data) MenuItem.empty rfl rfl
  exact ⟨h.1, fun it hit => h.2 it (List.mem_of_mem_getLast? hit)⟩

theorem c5_witness :
    (({ name := some "Pasta", price := some "$12.50",
          full_text := some "Pasta $12.50" } : MenuItem).price.isSome
      ∧ ({ name := some "Pasta", price := some "$12.50",
            full_text := some "Pasta $12.50" } : MenuItem).full_text.isSome)
    ∧ ((({ name := some "Soup" } : MenuItem).price.isSome
          ∧ ({ name := some "Soup" } : MenuItem).full_text.isSome)
        ∨ (({ name := some "Soup" } : MenuItem).price = none
            ∧ ({ name := some "Soup" } : MenuItem).full_text = none)) :=
  ⟨(c5_all_but_last_closed "Pasta\n$12.50\nSoup").1
      { name := some "Pasta", price := some "$12.50", full_text := some "Pasta $12.50" }
      (by decide),
   (c5_all_but_last_closed "Pasta\n$12.50\nSoup").2 { name := some "Soup" } (by decide)⟩

/-- Splitting always yields at least one piece. -/
theorem pySplitLines_ne_nil (cs : List Char) : pySplitLines cs ≠ [] := by
  cases cs with
  | nil => simp [pySplitLines]
  | cons c rest =>
    rw [pySplitLines]
    split <;> simp

/-- No piece produced by splitting contains a newline. -/
theorem no_newline_mem_pySplitLines (cs : List Char) :
    ∀ l ∈ pySplitLines cs, '\n' ∉ l := by
  induction cs with
  | nil =>
    intro l hl
    rw [pySplitLines, List.mem_singleton] at hl
    subst hl
    simp
  | cons c rest ih =>
    intro l hl
    rw [pySplitLines] at hl
    by_cases hc : c = '\n'
    · rw [if_pos hc] at hl
      rcases List.mem_cons.mp hl with h | h
      · subst h; simp
      · exact ih l h
    · rw [if_neg hc] at hl
      rcases List.mem_cons.mp hl with h | h
      · subst h
        intro hmem
        rcases List.mem_cons.mp hmem with h | h
        · exact hc h.symm
        · cases hrest : pySplitLines rest with
          | nil => exact pySplitLines_ne_nil rest hrest
          | cons m ms =>
            rw [hrest] at h
            exact ih m (by rw [hrest]; exact List.mem_cons_self m ms) (by simpa using h)
      · exact ih l (List.mem_of_mem_tail h)

/-- A newline-free text splits into the single piece it is. -/
theorem pySplitLines_eq_single (l : List Char) (h : '\n' ∉ l) : pySplitLines l = [l] := by
  induction l with
  | nil => rfl
  | cons c rest ih =>
    have hc : ¬ c = '\n' := fun hh => h (hh ▸ List.mem_cons_self c rest)
    rw [pySplitLines, if_neg hc, ih (fun hm => h (List.mem_cons_of_mem c hm))]
    simp

/-- Splitting after a newline-free prefix peels off that prefix. -/
theorem pySplitLines_append (l cs : List Char) (h : '\n' ∉ l) :
    pySplitLines (l ++ '\n' :: cs) = l :: pySplitLines cs := by
  induction l with
  | nil => simp [pySplitLines]
  | cons c rest ih =>
    have hc : ¬ c = '\n' := fun hh => h (hh ▸ List.mem_cons_self c rest)
    rw [List.cons_append, pySplitLines, if_neg hc,
      ih (fun hm => h (List.mem_cons_of_mem c hm))]
    simp

/-- Splitting is a left inverse of joining newline-free lines. -/
theorem pySplitLines_joinLines : ∀ ls : List (List Char), ls ≠ [] →
    (∀ l ∈ ls, '\n' ∉ l) → pySplitLines (joinLines ls) = ls
  | [], h, _ => absurd rfl h
  | [l], _, hnl => by
    rw [joinLines]
    exact pySplitLines_eq_single l (hnl l (List.mem_singleton.mpr rfl))
  | l :: l2 :: rest, _, hnl => by
    rw [joinLines, pySplitLines_append _ _ (hnl l (List.mem_cons_self _ _)),
      pySplitLines_joinLines (l2 :: rest) (by simp)
        (fun m hm => hnl m (List.mem_cons_of_mem _ hm))]

/-- A line of stripped length at least 3 survives the nonempty filter. -/
theorem length_le_and_isEmpty (m : List Char) :
    (decide (3 ≤ m.length) && !m.isEmpty) = decide (3 ≤ m.length) := by
  cases m with
  | nil => decide
  | cons c t => simp

/-- Filtering the cleaned lines down to those of length at least 3 is
the same as cleaning only the raw lines whose stripped length is at
least 3. -/
theorem cleanLines_filter_short (cs : List Char) :
    (cleanLines cs).filter (fun l => decide (3 ≤ l.length))
      = ((pySplitLines cs).filter
          (fun l => decide (3 ≤ (stripList l).length))).map stripList := by
  unfold cleanLines
  rw [List.filter_filter, List.filter_map]
  refine congrArg (List.map stripList) (List.filter_congr fun l _ => ?_)
  simp only [Function.comp]
  exact length_le_and_isEmpty (stripList l)

/-- Cleaning the joined kept lines yields exactly their strips. -/
theorem cleanLines_joinLines (K : List (List Char))
    (hnl : ∀ l ∈ K, '\n' ∉ l)
    (hA : ∀ l ∈ K, 3 ≤ (stripList l).length) :
    cleanLines (joinLines K) = K.map stripList := by
  cases K with
  | nil => rfl
  | cons k ks =>
    unfold cleanLines
    rw [pySplitLines_joinLines (k :: ks) (by simp) hnl]
    refine List.filter_eq_self.mpr fun x hx => ?_
    rcases List.mem_map.mp hx with ⟨l, hl, rfl⟩
    have h3 := hA l hl
    cases hs : stripList l with
    | nil => rw [hs] at h3; simp at h3
    | cons c t => simp

/-- The loop ignores lines shorter than 3 characters, so filtering them
out beforehand does not change its output. -/
theorem extractLoop_filter_short (lines : List (List Char)) :
    ∀ cur : MenuItem,
      extractLoop cur (lines.filter (fun l => decide (3 ≤ l.length)))
        = extractLoop cur lines := by
  induction lines with
  | nil => intro cur; rfl
  | cons line rest ih =>
    intro cur
    by_cases hlen : 3 ≤ line.length
    · rw [List.filter_cons_of_pos (by simpa using hlen)]
      conv_lhs => rw [extractLoop]
      conv_rhs => rw [extractLoop]
      have hlt : ¬ line.length < 3 := not_lt.mpr hlen
      rw [if_neg hlt, if_neg hlt]
      split_ifs <;> simp [ih]
    · have hcond : decide (3 ≤ line.length) = false := by
        simpa using hlen
      rw [List.filter_cons, hcond, if_neg Bool.false_ne_true]
      conv_rhs => rw [extractLoop]
      rw [if_pos (by omega)]
      exact ih cur

/-- C7: lines whose trimmed length is under 3 never influence the
segmenter: segmenting a text equals segmenting the same text with all
such lines removed. -/
theorem c7_short_lines_never_influence (text : String) :
    extract_menu_items (removeShortLines text) = extract_menu_items text := by
  unfold extract_menu_items
  conv_rhs => rw [← extractLoop_filter_short (cleanLines text.data) MenuItem.empty]
  rw [cleanLines_filter_short]
  have h1 : (removeShortLines text).data
      = joinLines ((pySplitLines text.data).filter
          (fun l => decide (3 ≤ (stripList l).length))) := rfl
  rw [h1, cleanLines_joinLines _
    (fun l hl => no_newline_mem_pySplitLines text.data l (List.mem_of_mem_filter hl))
    (fun l hl => by simpa using List.of_mem_filter hl)]

end OCR2
